import Mathlib

/-
  Verification development for the ecr-proxy Go repository.

  The Go sources are shallowly embedded:
  - Go strings are `List Char` (`GoStr`); Go byte slices of IP addresses are
    `List Nat` with each byte in 0..255.
  - The standard-library routines the code calls (`strings.TrimSpace`,
    `strings.Split`, `net.ParseIP`, `net.ParseCIDR`, `net.SplitHostPort`,
    `net.IP.To4`, `net.IPNet.Contains`) are translated from the Go 1.22
    standard library (the toolchain pinned by the repository's Dockerfile),
    where `net.ParseIP`/`net.ParseCIDR` delegate to `netip.ParseAddr` and
    reject zones.  `unicode.IsSpace` is modelled on its Latin-1 range, which
    covers every character the repository's inputs use.
  - Stateful code (`Token.Refresh`) becomes explicit state passing: the
    upstream AWS call is a parameter describing its outcome, and the
    function returns the outcome paired with the post-call state.
-/

abbrev GoStr := List Char

/-- `unicode.IsSpace` on the Latin-1 range (Go `strings.TrimSpace` cutset). -/
def goIsSpace (c : Char) : Bool :=
  c == ' ' || c == '\t' || c == '\n' || c == '\x0b' || c == '\x0c' ||
    c == '\r' || c == '\u0085' || c == '\u00a0'

/-- Trailing-whitespace trim, as the second half of `strings.TrimSpace`
    (`List.rdropWhile p l` is `(l.reverse.dropWhile p).reverse`). -/
def trimRightSpace (s : GoStr) : GoStr :=
  List.rdropWhile goIsSpace s

/-- Go `strings.TrimSpace`. -/
def goTrimSpace (s : GoStr) : GoStr :=
  trimRightSpace (s.dropWhile goIsSpace)

/-- Go `strings.Contains(s, string(ch))` for a one-character needle. -/
def containsChar : GoStr → Char → Bool
  | [], _ => false
  | c :: r, ch => c == ch || containsChar r ch

/-- Go `strings.Split(s, ",")`: split at every comma; yields `[""]` on `""`. -/
def splitComma : GoStr → List GoStr
  | [] => [[]]
  | c :: rest =>
    if c = ',' then [] :: splitComma rest
    else
      match splitComma rest with
      | [] => [[c]]
      | g :: gs => (c :: g) :: gs

/-- Join entries with commas (inverse of `splitComma` on comma-free entries). -/
def joinComma : List GoStr → GoStr
  | [] => []
  | [e] => e
  | e :: rest => e ++ ',' :: joinComma rest

/-- First index of `ch` in `s` (Go `byteIndex`). -/
def idxOf : GoStr → Char → Option Nat
  | [], _ => none
  | c :: r, ch => if c = ch then some 0 else (idxOf r ch).map (· + 1)

/-- Last index of `ch` in `s` (Go `last` in net/ipsock.go). -/
def lastIdxOf : GoStr → Char → Option Nat
  | [], _ => none
  | c :: r, ch =>
    match lastIdxOf r ch with
    | some i => some (i + 1)
    | none => if c = ch then some 0 else none

/-- Go net `dtoi`: parse a decimal prefix, cutting off at `big = 0xFFFFFF`.
    Returns (value, chars consumed, ok). -/
def dtoiLoop : GoStr → Nat → Nat → Nat × Nat × Bool
  | [], n, i => if i = 0 then (0, 0, false) else (n, i, true)
  | c :: rest, n, i =>
    if '0' ≤ c ∧ c ≤ '9' then
      let n2 := n * 10 + (c.toNat - '0'.toNat)
      if 0xFFFFFF ≤ n2 then (0xFFFFFF, i, false)
      else dtoiLoop rest n2 (i + 1)
    else if i = 0 then (0, 0, false) else (n, i, true)

def dtoi (s : GoStr) : Nat × Nat × Bool := dtoiLoop s 0 0

/-- Octet separator handling: the first octet starts immediately, later
    octets must be preceded by a dot. -/
def consumeDot (first : Bool) (s : GoStr) : Option GoStr :=
  if first then some s
  else
    match s with
    | '.' :: r => some r
    | _ => none

/-- Field loop of `netip`'s IPv4 parser, written as the classic per-octet
    recursion: each octet is a decimal 0..255 with no leading zero, octets
    after the first are preceded by a dot, and the whole string must be
    consumed.  Accumulates the four octet values. -/
def parseIPv4Core : Nat → GoStr → List Nat → Option (List Nat)
  | 0, s, acc => if s = [] then some acc else none
  | k + 1, s, acc =>
    if s = [] then none
    else
      match consumeDot acc.isEmpty s with
      | none => none
      | some s1 =>
        match dtoi s1 with
        | (n, c, ok) =>
          if ok = false ∨ 255 < n then none
          else if 1 < c ∧ s1.head? = some '0' then none
          else parseIPv4Core k (s1.drop c) (acc ++ [n])

/-- `netip.parseIPv4` (Go 1.22): four octets, or failure. -/
def parseIPv4 (s : GoStr) : Option (List Nat) := parseIPv4Core 4 s []

/-- The IPv4-in-IPv6 prefix `v4InV6Prefix`. -/
def v4InV6Pre : List Nat := [0, 0, 0, 0, 0, 0, 0, 0, 0, 0, 255, 255]

/-- `As16` of an IPv4 address: the IPv4-mapped 16-byte form. -/
def v4mapped (p : List Nat) : List Nat := v4InV6Pre ++ p

/-- Hex-field scan inside `netip.parseIPv6`: consume hex digits, failing on
    a value ≥ 2^16 or on an empty digit run.  Returns (value, digits read). -/
def hexFieldLoop : GoStr → Nat → Nat → Option (Nat × Nat)
  | [], acc, off => if off = 0 then none else some (acc, off)
  | c :: r, acc, off =>
    if ('0' ≤ c ∧ c ≤ '9') ∨ ('a' ≤ c ∧ c ≤ 'f') ∨ ('A' ≤ c ∧ c ≤ 'F') then
      let d := if '0' ≤ c ∧ c ≤ '9' then c.toNat - '0'.toNat
               else if 'a' ≤ c ∧ c ≤ 'f' then c.toNat - 'a'.toNat + 10
               else c.toNat - 'A'.toNat + 10
      let acc2 := acc * 16 + d
      if 0xFFFF < acc2 then none else hexFieldLoop r acc2 (off + 1)
    else if off = 0 then none else some (acc, off)

def hexField (s : GoStr) : Option (Nat × Nat) := hexFieldLoop s 0 0

/-- Main loop of `netip.parseIPv6`.  `acc` is the list of bytes written so
    far (loop index `i = acc.length`), `ell` the ellipsis byte position.
    Returns the final bytes, ellipsis, and unconsumed input.  Each recursive
    call appends two bytes and the loop stops once 16 bytes are written, so
    at most 8 recursion steps happen and fuel 16 is never exhausted. -/
def parseIPv6Loop : Nat → GoStr → List Nat → Option Nat →
    Option (List Nat × Option Nat × GoStr)
  | 0, _, _, _ => none
  | fuel + 1, s, acc, ell =>
    if 16 ≤ acc.length then some (acc, ell, s)
    else
      match hexField s with
      | none => none
      | some (n, off) =>
        if (s.drop off).head? = some '.' then
          -- trailing embedded IPv4: only in the final 4 bytes
          if ell.isNone ∧ acc.length ≠ 12 then none
          else if 16 < acc.length + 4 then none
          else
            match parseIPv4 s with
            | none => none
            | some ip4 => some (acc ++ ip4, ell, [])
        else
          let acc2 := acc ++ [n / 256, n % 256]
          let s1 := s.drop off
          if s1 = [] then some (acc2, ell, [])
          else if s1.head? ≠ some ':' then none
          else if s1.length = 1 then none
          else
            let s2 := s1.drop 1
            if s2.head? = some ':' then
              if ell.isSome then none
              else
                let s3 := s2.drop 1
                if s3 = [] then some (acc2, some acc2.length, [])
                else parseIPv6Loop fuel s3 acc2 (some acc2.length)
            else parseIPv6Loop fuel s2 acc2 ell

/-- Post-processing of `netip.parseIPv6`: the whole string must be consumed;
    a short address needs an ellipsis, expanded by shifting the bytes after
    it to the end and zero-filling; a full 16 bytes must not have one. -/
def parseIPv6Post : Option (List Nat × Option Nat × GoStr) → Option (List Nat)
  | none => none
  | some (acc, ell, leftover) =>
    if leftover ≠ [] then none
    else if acc.length < 16 then
      match ell with
      | none => none
      | some e => some (acc.take e ++ List.replicate (16 - acc.length) 0 ++ acc.drop e)
    else if ell.isSome then none
    else some acc

/-- `netip.parseIPv6` without zones (zones are rejected upstream): handle a
    leading `::`, then run the field loop and post-process. -/
def parseIPv6 (s : GoStr) : Option (List Nat) :=
  if 2 ≤ s.length ∧ s.take 2 = [':', ':'] then
    (if s.drop 2 = [] then some (List.replicate 16 0)
     else parseIPv6Post (parseIPv6Loop 16 (s.drop 2) [] (some 0)))
  else parseIPv6Post (parseIPv6Loop 16 s [] none)

/-- `netip.ParseAddr`'s dispatch: the first of `.`, `:`, `%` decides. -/
def addrDispatch : GoStr → Option Char
  | [] => none
  | c :: r => if c = '.' ∨ c = ':' ∨ c = '%' then some c else addrDispatch r

/-- `netip.ParseAddr` followed by the zone rejection done by `net.ParseIP`
    and `net.ParseCIDR` in Go 1.22 (`err != nil || Zone() != ""`).  Any `%`
    in the input therefore yields `none`.  Returns the 16-byte `As16` form
    and whether the address was IPv4 (`BitLen 32`). -/
def goParseAddr (s : GoStr) : Option (List Nat × Bool) :=
  match addrDispatch s with
  | some '.' => (parseIPv4 s).map (fun p => (v4mapped p, true))
  | some ':' =>
    if containsChar s '%' then none
    else (parseIPv6 s).map (fun b => (b, false))
  | _ => none

/-- Go 1.22 `net.ParseIP` (nil becomes `none`). -/
def goParseIP (s : GoStr) : Option (List Nat) := (goParseAddr s).map (·.1)

/-- `net.CIDRMask(ones, bits)`, bytewise: `^byte(0xff >> n)` is
    `255 - 255 / 2 ^ n`. -/
def cidrMaskBytes : Nat → Nat → List Nat
  | 0, _ => []
  | l + 1, n =>
    if 8 ≤ n then 255 :: cidrMaskBytes l (n - 8)
    else (255 - 255 / 2 ^ n) :: cidrMaskBytes l 0

def cidrMask (ones bits : Nat) : List Nat := cidrMaskBytes (bits / 8) ones

/-- `net.IP.Mask`: adapt a 16-byte mask to a 4-byte IP (when all-ones on the
    first 12 bytes) or a 16-byte mapped IPv4 address to a 4-byte mask, then
    AND bytewise; mismatched lengths give nil. -/
def ipMask (ip0 mask0 : List Nat) : Option (List Nat) :=
  let mask := if mask0.length = 16 ∧ ip0.length = 4 ∧
                  (mask0.take 12).all (fun b => b == 255)
              then mask0.drop 12 else mask0
  let ip := if mask.length = 4 ∧ ip0.length = 16 ∧ ip0.take 12 = v4InV6Pre
            then ip0.drop 12 else ip0
  if ip.length = mask.length then
    some (List.zipWith (fun a b => a &&& b) ip mask)
  else none

/-- Go 1.22 `net.ParseCIDR`: split at the first `/`, parse the address via
    `netip.ParseAddr` (zone rejected), parse the prefix length with `dtoi`
    consuming the whole mask string and bounded by the address bit length,
    and return the masked network address with its mask. -/
def goParseCIDR (s : GoStr) : Option (List Nat × List Nat) :=
  match idxOf s '/' with
  | none => none
  | some i =>
    let addr := s.take i
    let maskStr := s.drop (i + 1)
    match goParseAddr addr with
    | none => none
    | some (ip16, isV4) =>
      let bitLen := if isV4 then 32 else 128
      match dtoi maskStr with
      | (n, c, ok) =>
        if ok = true ∧ c = maskStr.length ∧ n ≤ bitLen then
          match ipMask ip16 (cidrMask n bitLen) with
          | none => none
          | some netAddr => some (netAddr, cidrMask n bitLen)
        else none

/-- `net.IP.To4`. -/
def ipTo4 (ip : List Nat) : Option (List Nat) :=
  if ip.length = 4 then some ip
  else if ip.length = 16 ∧ ip.take 12 = v4InV6Pre then some (ip.drop 12)
  else none

/-- `net.networkNumberAndMask`. -/
def networkNumberAndMask (nIP nMask : List Nat) :
    Option (List Nat × List Nat) :=
  match (match ipTo4 nIP with
         | some x => some x
         | none => if nIP.length = 16 then some nIP else none) with
  | none => none
  | some ip =>
    if nMask.length = 4 then
      (if ip.length = 4 then some (ip, nMask) else none)
    else if nMask.length = 16 then
      (if ip.length = 4 then some (ip, nMask.drop 12) else some (ip, nMask))
    else none

/-- `net.IPNet.Contains`. -/
def ipNetContains (net : List Nat × List Nat) (ip0 : List Nat) : Bool :=
  match networkNumberAndMask net.1 net.2 with
  | none => false
  | some (nn, m) =>
    let ip := match ipTo4 ip0 with
              | some x => x
              | none => ip0
    if ip.length ≠ nn.length then false
    else ((nn.zip m).zip ip).all (fun p => (p.1.1 &&& p.1.2) == (p.2 &&& p.1.2))

/-- One whitelist entry of `IsIPAllowed`'s parsing loop: trim, drop every
    space, skip if empty, append `/128` (contains `:`) or `/32` when no `/`
    is present, then `net.ParseCIDR`; parse failures are skipped (`none`). -/
def parseWhitelistEntry (entry0 : GoStr) : Option (List Nat × List Nat) :=
  let entry1 := goTrimSpace entry0
  let entry := entry1.filter (fun c => c != ' ')
  if entry = [] then none
  else
    let entry2 := if containsChar entry '/' = false then
        (if containsChar entry ':' then entry ++ "/128".toList
         else entry ++ "/32".toList)
      else entry
    goParseCIDR entry2

/-- Go 1.22 `net.SplitHostPort` (errors become `none`). -/
def goSplitHostPort (s : GoStr) : Option (GoStr × GoStr) :=
  match lastIdxOf s ':' with
  | none => none
  | some i =>
    if s.head? = some '[' then
      match idxOf s ']' with
      | none => none
      | some e =>
        if e + 1 = s.length then none
        else if e + 1 = i then
          if containsChar (s.drop 1) '[' then none
          else if containsChar (s.drop (e + 1)) ']' then none
          else some ((s.take e).drop 1, s.drop (i + 1))
        else none
    else
      let host := s.take i
      if containsChar host ':' then none
      else if containsChar s '[' then none
      else if containsChar s ']' then none
      else some (host, s.drop (i + 1))

/-- Host extraction in `IsIPAllowed`: `net.SplitHostPort`, falling back to
    the trimmed whole string when the split fails (no bracket stripping). -/
def extractHost (remoteAddr : GoStr) : GoStr :=
  match goSplitHostPort remoteAddr with
  | some (h, _) => h
  | none => goTrimSpace remoteAddr

/-- `net.ParseIP(strings.TrimSpace(host))` followed by the `To4`
    normalization of IPv4-mapped addresses. -/
def resolveClientIP (remoteAddr : GoStr) : Option (List Nat) :=
  match goParseIP (goTrimSpace (extractHost remoteAddr)) with
  | none => none
  | some ip0 =>
    some (match ipTo4 ip0 with
          | some x => x
          | none => ip0)

/-- `utils.IsIPAllowed` from internal/utils/ip.go: deny on empty (trimmed)
    whitelist; otherwise parse the comma-separated entries, resolve the
    client address, and admit iff some parsed network contains it. -/
def IsIPAllowed (remoteAddr ipWhitelist : GoStr) : Bool :=
  if goTrimSpace ipWhitelist = [] then false
  else
    let ipNets := (splitComma ipWhitelist).filterMap parseWhitelistEntry
    match resolveClientIP remoteAddr with
    | none => false
    | some ip => ipNets.any (fun n => ipNetContains n ip)

/-! ### Credential manager (internal/token/ecr.go) -/

/-- `time.Duration` values are nanosecond counts; instants are modelled as
    integer nanoseconds. -/
def nanosPerHour : Int := 3600 * 1000000000

/-- `tokenRefreshAfter = 6 * time.Hour` from internal/token/ecr.go. -/
def tokenRefreshAfter : Int := 6 * nanosPerHour

/-- The manager's mutable fields guarded by its lock. -/
structure TokenState where
  token : GoStr
  expiresAt : Int
  endpoint : GoStr
deriving DecidableEq

/-- One entry of `result.AuthorizationData` (`*ecr.AuthorizationData`); each
    field is a pointer and may be nil. -/
structure AuthData where
  authorizationToken : Option GoStr
  expiresAt : Option Int
  proxyEndpoint : Option GoStr
deriving DecidableEq

/-- Outcome of `svc.GetAuthorizationToken`: either an SDK error, or a
    response carrying `AuthorizationData` (a slice of possibly-nil
    pointers). -/
inductive FetchResult where
  | err : FetchResult
  | ok : List (Option AuthData) → FetchResult
deriving DecidableEq

/-- The result value of `Token.Refresh`: nil, the propagated SDK error, or
    one of the five `fmt.Errorf` cases. -/
inductive RefreshOutcome where
  | success
  | fetchFailed
  | noAuthData
  | authDataNil
  | tokenNil
  | expiresNil
  | endpointNil
deriving DecidableEq

/-- The exact `fmt.Errorf` message produced for each in-function error of
    `Refresh` (`none` for nil and for the propagated SDK error, whose text
    comes from the SDK). -/
def refreshErrMsg : RefreshOutcome → Option GoStr
  | .success => none
  | .fetchFailed => none
  | .noAuthData => some ("no authorization data returned from ECR".toList)
  | .authDataNil => some ("authorization data is nil".toList)
  | .tokenNil => some ("authorization token is nil".toList)
  | .expiresNil => some ("expiration time is nil".toList)
  | .endpointNil => some ("proxy endpoint is nil".toList)

/-- `strings.HasPrefix(endpoint, "https://")` stripping in `Refresh`. -/
def stripHttpsScheme (e : GoStr) : GoStr :=
  if ("https://".toList).isPrefixOf e then e.drop 8 else e

/-- `Token.IsValid`: `time.Now().Before(t.ExpiresAt) && len(t.Token) > 0`. -/
def isValid (st : TokenState) (now : Int) : Bool :=
  decide (now < st.expiresAt ∧ 0 < st.token.length)

/-- `Token.Refresh` under the exclusive lock, with `now` the value of
    `time.Now()` and `fetch` the outcome the upstream call would produce.
    Returns the error value together with the state after the call; every
    `return err` in the Go code happens before any field assignment, so the
    state is passed through unchanged on those paths. -/
def refresh (st : TokenState) (now : Int) (fetch : FetchResult) :
    RefreshOutcome × TokenState :=
  -- double-check after acquiring the lock: skip the fetch if still valid
  if now < st.expiresAt ∧ 0 < st.token.length then (.success, st)
  else
    match fetch with
    | .err => (.fetchFailed, st)
    | .ok ads =>
      match ads with
      | [] => (.noAuthData, st)
      | none :: _ => (.authDataNil, st)
      | some ad :: _ =>
        match ad.authorizationToken with
        | none => (.tokenNil, st)
        | some tok =>
          match ad.expiresAt with
          | none => (.expiresNil, st)
          | some exp =>
            match ad.proxyEndpoint with
            | none => (.endpointNil, st)
            | some ep =>
              (.success,
               { token := tok
                 expiresAt := exp - tokenRefreshAfter
                 endpoint := stripHttpsScheme ep })

/-! ### Request authorizer and access gate (main.go) -/

/-- The outbound request fields touched by the proxy's Director. Headers
    are a lookup from canonical header name to value (`http.Header.Set`
    semantics: replace whatever was there). -/
structure OutRequest where
  urlScheme : GoStr
  urlHost : GoStr
  hostField : GoStr
  headers : GoStr → Option GoStr

/-- `setupProxy`'s Director: read the manager's endpoint and token under the
    read lock, then rewrite scheme, URL host, Host header and the
    Authorization header (`"Basic " + authToken`). -/
def director (st : TokenState) (req : OutRequest) : OutRequest :=
  { req with
    urlScheme := "https".toList
    urlHost := st.endpoint
    hostField := st.endpoint
    headers := fun k =>
      if k = "Authorization".toList then some ("Basic ".toList ++ st.token)
      else req.headers k }

inductive ProxyDecision where
  | forbidden
  | forward
deriving DecidableEq

/-- The access gate of `handleProxy`: the whitelist check runs only when the
    configured `IP_WHITELIST` string is non-empty; `clientIP` is the address
    string derived from the request. -/
def handleProxy (ipWhitelist clientIP : GoStr) : ProxyDecision :=
  if ipWhitelist ≠ [] then
    if IsIPAllowed clientIP ipWhitelist then .forward else .forbidden
  else .forward

/-! ### Helper lemmas -/

lemma isValid_true_iff (st : TokenState) (now : Int) :
    isValid st now = true ↔ (now < st.expiresAt ∧ 0 < st.token.length) := by
  simp [isValid]

lemma isValid_false_iff (st : TokenState) (now : Int) :
    isValid st now = false ↔ ¬ (now < st.expiresAt ∧ 0 < st.token.length) := by
  simp [isValid]

lemma refresh_cases (st : TokenState) (now : Int) (fetch : FetchResult) :
    (refresh st now fetch).1 = .success ∨ (refresh st now fetch).2 = st := by
  unfold refresh
  split
  · exact Or.inl rfl
  · cases fetch with
    | err => exact Or.inr rfl
    | ok ads =>
      match ads with
      | [] => exact Or.inr rfl
      | none :: _ => exact Or.inr rfl
      | some ad :: _ =>
        rcases ad with ⟨tok, exp, ep⟩
        cases tok with
        | none => exact Or.inr rfl
        | some tok =>
          cases exp with
          | none => exact Or.inr rfl
          | some exp =>
            cases ep with
            | none => exact Or.inr rfl
            | some ep => exact Or.inl rfl

/-! ### Claim theorems: credential manager -/

/-- C1: a successful fetch stores the upstream expiry minus the fixed
    6-hour margin as the manager's internal expiry; `IsValid` is already
    false exactly at the adjusted instant (and ever after), while it is
    still true strictly before it; in particular an upstream expiry of
    now+12h yields a stored expiry of now+6h. -/
theorem c1_expiry_margin (st : TokenState) (now : Int) (tok : GoStr)
    (exp : Int) (ep : GoStr) (rest : List (Option AuthData))
    (hInvalid : isValid st now = false) :
    (refresh st now (.ok (some ⟨some tok, some exp, some ep⟩ :: rest))).1
        = .success ∧
    (refresh st now (.ok (some ⟨some tok, some exp, some ep⟩ :: rest))).2
        = ⟨tok, exp - tokenRefreshAfter, stripHttpsScheme ep⟩ ∧
    (∀ t : Int, exp - tokenRefreshAfter ≤ t →
      isValid (refresh st now (.ok (some ⟨some tok, some exp, some ep⟩ :: rest))).2 t
        = false) ∧
    (0 < tok.length → ∀ t : Int, t < exp - tokenRefreshAfter →
      isValid (refresh st now (.ok (some ⟨some tok, some exp, some ep⟩ :: rest))).2 t
        = true) ∧
    (exp = now + 12 * nanosPerHour →
      (refresh st now (.ok (some ⟨some tok, some exp, some ep⟩ :: rest))).2.expiresAt
        = now + 6 * nanosPerHour) := by
  rw [isValid_false_iff] at hInvalid
  have hr : refresh st now (.ok (some ⟨some tok, some exp, some ep⟩ :: rest))
      = (.success, ⟨tok, exp - tokenRefreshAfter, stripHttpsScheme ep⟩) := by
    unfold refresh
    rw [if_neg hInvalid]
  refine ⟨by rw [hr], by rw [hr], ?_, ?_, by intro he; rw [hr, he]; simp [tokenRefreshAfter, nanosPerHour]; ring⟩
  · intro t ht
    rw [hr, isValid_false_iff]
    rintro ⟨hlt, -⟩
    exact absurd hlt (by simp; omega)
  · intro htok t ht
    rw [hr, isValid_true_iff]
    exact ⟨ht, htok⟩

/-- C1 witness: concrete instance with upstream expiry now+12h. -/
theorem c1_expiry_margin_witness :
    isValid ⟨[], 0, []⟩ 0 = false ∧
    (refresh ⟨[], 0, []⟩ 0
      (.ok [some ⟨some ("tok".toList), some (12 * nanosPerHour),
                  some ("host".toList)⟩])).2.expiresAt = 6 * nanosPerHour := by
  refine ⟨by decide, ?_⟩
  have h := c1_expiry_margin ⟨[], 0, []⟩ 0 ("tok".toList) (12 * nanosPerHour)
    ("host".toList) [] (by decide)
  simpa using h.2.2.2.2 (by ring)

/-- C2 counterexample: with a still-valid credential held, `Refresh()`
    returns success and keeps the old credential even when a fresh upstream
    response is available, and it also returns success when the upstream
    call would fail — so it does not unconditionally issue the upstream
    call, and a successful fetch outcome does not replace the credential. -/
theorem c2_counterexample :
    refresh ⟨"oldtoken".toList, 1000, "old.host".toList⟩ 0
        (.ok [some ⟨some ("newtoken".toList), some 2000, some ("new.host".toList)⟩])
      = (.success, ⟨"oldtoken".toList, 1000, "old.host".toList⟩) ∧
    refresh ⟨"oldtoken".toList, 1000, "old.host".toList⟩ 0 .err
      = (.success, ⟨"oldtoken".toList, 1000, "old.host".toList⟩) ∧
    "oldtoken".toList ≠ "newtoken".toList := by
  refine ⟨?_, ?_, by decide⟩ <;> · unfold refresh; rw [if_pos (by decide)]

/-- C2 amended: `Refresh()` re-checks validity after taking the lock and
    returns success without consulting the upstream outcome while the held
    credential is still valid; only when it is expired or empty does the
    call reach upstream — failing with the fetch error, or atomically
    replacing the credential on a complete successful response. -/
theorem c2_refresh_short_circuit (st : TokenState) (now : Int)
    (fetch : FetchResult) :
    (isValid st now = true → refresh st now fetch = (.success, st)) ∧
    (isValid st now = false → refresh st now .err = (.fetchFailed, st)) ∧
    (isValid st now = false → ∀ tok exp ep rest,
      fetch = .ok (some ⟨some tok, some exp, some ep⟩ :: rest) →
      refresh st now fetch
        = (.success, ⟨tok, exp - tokenRefreshAfter, stripHttpsScheme ep⟩)) := by
  refine ⟨?_, ?_, ?_⟩
  · intro hv
    rw [isValid_true_iff] at hv
    unfold refresh
    rw [if_pos hv]
  · intro hv
    rw [isValid_false_iff] at hv
    unfold refresh
    rw [if_neg hv]
  · intro hv tok exp ep rest hf
    rw [isValid_false_iff] at hv
    subst hf
    unfold refresh
    rw [if_neg hv]

/-- C2 amended witness: both branches at concrete states. -/
theorem c2_refresh_short_circuit_witness :
    refresh ⟨"t".toList, 10, "e".toList⟩ 0 .err
      = (.success, ⟨"t".toList, 10, "e".toList⟩) ∧
    refresh ⟨"t".toList, 10, "e".toList⟩ 20 .err
      = (.fetchFailed, ⟨"t".toList, 10, "e".toList⟩) := by
  exact ⟨(c2_refresh_short_circuit _ 0 .err).1 (by decide),
         (c2_refresh_short_circuit _ 20 .err).2.1 (by decide)⟩

/-- C3: whenever `Refresh()` returns a non-nil error, the stored token,
    endpoint and expiry are exactly as before the call. -/
theorem c3_failed_refresh_preserves (st : TokenState) (now : Int)
    (fetch : FetchResult) (hfail : (refresh st now fetch).1 ≠ .success) :
    (refresh st now fetch).2.token = st.token ∧
    (refresh st now fetch).2.endpoint = st.endpoint ∧
    (refresh st now fetch).2.expiresAt = st.expiresAt := by
  rcases refresh_cases st now fetch with h | h
  · exact absurd h hfail
  · rw [h]
    exact ⟨rfl, rfl, rfl⟩

/-- C3 witness: a successful refresh followed by a failed one keeps the
    previously fetched token. -/
theorem c3_failed_refresh_preserves_witness :
    ((refresh ⟨[], 0, []⟩ 0
        (.ok [some ⟨some ("newtoken".toList), some (12 * nanosPerHour),
          some ("host".toList)⟩])).2.token = "newtoken".toList) ∧
    ((refresh (refresh ⟨[], 0, []⟩ 0
        (.ok [some ⟨some ("newtoken".toList), some (12 * nanosPerHour),
          some ("host".toList)⟩])).2 (13 * nanosPerHour) .err).2.token
      = "newtoken".toList) := by
  have h := c3_failed_refresh_preserves (refresh ⟨[], 0, []⟩ 0
      (.ok [some ⟨some ("newtoken".toList), some (12 * nanosPerHour),
        some ("host".toList)⟩])).2 (13 * nanosPerHour) .err (by decide)
  exact ⟨by decide, by rw [h.1]; decide⟩

/-- C9: when the held credential is stale (so the upstream call is made),
    an empty authorization-data slice, a nil record, a nil token, a nil
    expiry or a nil endpoint each produce their own error and leave the
    state untouched; the five error messages are pairwise distinct. -/
theorem c9_missing_fields (st : TokenState) (now : Int)
    (hInvalid : isValid st now = false) :
    (refresh st now (.ok []) = (.noAuthData, st)) ∧
    (∀ rest, refresh st now (.ok (none :: rest)) = (.authDataNil, st)) ∧
    (∀ rest exp ep,
      refresh st now (.ok (some ⟨none, exp, ep⟩ :: rest)) = (.tokenNil, st)) ∧
    (∀ rest tok ep,
      refresh st now (.ok (some ⟨some tok, none, ep⟩ :: rest)) = (.expiresNil, st)) ∧
    (∀ rest tok exp,
      refresh st now (.ok (some ⟨some tok, some exp, none⟩ :: rest)) = (.endpointNil, st)) ∧
    ([RefreshOutcome.noAuthData, .authDataNil, .tokenNil, .expiresNil,
        .endpointNil].map refreshErrMsg).Nodup := by
  rw [isValid_false_iff] at hInvalid
  refine ⟨?_, ?_, ?_, ?_, ?_, by decide⟩
  · unfold refresh; rw [if_neg hInvalid]
  · intro rest; unfold refresh; rw [if_neg hInvalid]
  · intro rest exp ep; unfold refresh; rw [if_neg hInvalid]
  · intro rest tok ep; unfold refresh; rw [if_neg hInvalid]
  · intro rest tok exp; unfold refresh; rw [if_neg hInvalid]

/-- C9 witness: concrete incomplete responses at a stale state. -/
theorem c9_missing_fields_witness :
    refresh ⟨[], 0, []⟩ 5 (.ok []) = (.noAuthData, ⟨[], 0, []⟩) ∧
    refresh ⟨[], 0, []⟩ 5 (.ok [none]) = (.authDataNil, ⟨[], 0, []⟩) ∧
    refresh ⟨[], 0, []⟩ 5 (.ok [some ⟨none, some 7, some ("h".toList)⟩])
      = (.tokenNil, ⟨[], 0, []⟩) := by
  have h := c9_missing_fields ⟨[], 0, []⟩ 5 (by decide)
  exact ⟨h.1, h.2.1 [], h.2.2.1 [] (some 7) (some ("h".toList))⟩

/-! ### Claim theorems: request authorizer and access gate -/

/-- C10: the Director always rewrites the outbound request with scheme
    https, URL host and Host header equal to the manager's endpoint, and
    the Authorization header equal to "Basic " plus the manager's token. -/
theorem c10_director_rewrites (st : TokenState) (req : OutRequest) :
    (director st req).urlScheme = "https".toList ∧
    (director st req).urlHost = st.endpoint ∧
    (director st req).hostField = st.endpoint ∧
    (director st req).headers ("Authorization".toList)
      = some ("Basic ".toList ++ st.token) := by
  refine ⟨rfl, rfl, rfl, ?_⟩
  simp [director]

/-- C5: when the configured whitelist string is empty, `handleProxy`
    forwards every request without consulting the matcher — even though the
    matcher itself maps an empty spec to deny-all. -/
theorem c5_empty_whitelist_forwards (clientIP : GoStr) :
    handleProxy [] clientIP = .forward ∧ IsIPAllowed clientIP [] = false := by
  exact ⟨by simp [handleProxy], rfl⟩

/-- C4: an empty or all-whitespace whitelist denies every client address. -/
theorem c4_empty_spec_denies (addr spec : GoStr)
    (h : goTrimSpace spec = []) : IsIPAllowed addr spec = false := by
  unfold IsIPAllowed
  rw [if_pos h]

/-- C4 witness: the spec scenario with an empty whitelist, and an
    all-whitespace whitelist. -/
theorem c4_empty_spec_denies_witness :
    IsIPAllowed ("127.0.0.1:1234".toList) [] = false ∧
    IsIPAllowed ("127.0.0.1:1234".toList) ("  ".toList) = false := by
  exact ⟨c4_empty_spec_denies _ _ rfl,
         c4_empty_spec_denies _ _ (by decide)⟩

/-! ### List/string lemmas for the matcher claims -/

lemma containsChar_append (xs ys : GoStr) (ch : Char) :
    containsChar (xs ++ ys) ch = (containsChar xs ch || containsChar ys ch) := by
  induction xs with
  | nil => simp [containsChar]
  | cons c r ih => simp [containsChar, ih, Bool.or_assoc]

lemma containsChar_eq_false_iff (s : GoStr) (ch : Char) :
    containsChar s ch = false ↔ ch ∉ s := by
  induction s with
  | nil => simp [containsChar]
  | cons c r ih =>
    rw [containsChar]
    constructor
    · intro h hm
      rcases Bool.or_eq_false_iff.1 h with ⟨h1, h2⟩
      rcases List.mem_cons.1 hm with hm | hm
      · exact absurd (beq_iff_eq.2 hm.symm) (by simp [h1])
      · exact absurd hm (ih.1 h2)
    · intro hm
      apply Bool.or_eq_false_iff.2
      refine ⟨?_, ih.2 fun hx => hm (List.mem_cons_of_mem _ hx)⟩
      by_contra hb
      exact hm (by simp [(beq_iff_eq.1 (Bool.of_not_eq_false hb)).symm])

lemma lastIdxOf_eq_none (s : GoStr) (ch : Char)
    (h : containsChar s ch = false) : lastIdxOf s ch = none := by
  induction s with
  | nil => rfl
  | cons c r ih =>
    rw [containsChar] at h
    rcases Bool.or_eq_false_iff.1 h with ⟨h1, h2⟩
    rw [lastIdxOf, ih h2]
    simp
    simpa using h1

lemma lastIdxOf_append_none (xs ys : GoStr) (ch : Char)
    (h : containsChar ys ch = false) :
    lastIdxOf (xs ++ ys) ch = lastIdxOf xs ch := by
  induction xs with
  | nil => simp [lastIdxOf_eq_none ys ch h, lastIdxOf]
  | cons c r ih =>
    rw [List.cons_append, lastIdxOf, ih, lastIdxOf]

lemma lastIdxOf_append_some (xs ys : GoStr) (ch : Char) (i : Nat)
    (h : lastIdxOf ys ch = some i) :
    lastIdxOf (xs ++ ys) ch = some (xs.length + i) := by
  induction xs with
  | nil => simpa using h
  | cons c r ih =>
    rw [List.cons_append, lastIdxOf, ih]
    simp
    omega

lemma idxOf_eq_none (s : GoStr) (ch : Char)
    (h : containsChar s ch = false) : idxOf s ch = none := by
  induction s with
  | nil => rfl
  | cons c r ih =>
    rw [containsChar] at h
    rcases Bool.or_eq_false_iff.1 h with ⟨h1, h2⟩
    rw [idxOf, if_neg (by simpa using h1), ih h2]
    rfl

lemma idxOf_append_cons (xs ys : GoStr) (ch : Char)
    (h : containsChar xs ch = false) :
    idxOf (xs ++ ch :: ys) ch = some xs.length := by
  induction xs with
  | nil => simp [idxOf]
  | cons c r ih =>
    rw [containsChar] at h
    rcases Bool.or_eq_false_iff.1 h with ⟨h1, h2⟩
    rw [List.cons_append, idxOf, if_neg (by simpa using h1), ih h2]
    rfl

lemma goTrimSpace_cons_bracket (r : GoStr) :
    ∃ t, goTrimSpace ('[' :: r) = '[' :: t := by
  unfold goTrimSpace trimRightSpace
  rw [List.dropWhile_cons_of_neg (by decide)]
  have hpre := List.rdropWhile_prefix goIsSpace ('[' :: r)
  cases hrd : List.rdropWhile goIsSpace ('[' :: r) with
  | nil =>
    have := List.rdropWhile_eq_nil_iff.1 hrd '[' (by simp)
    exact absurd this (by decide)
  | cons c t =>
    rw [hrd] at hpre
    obtain ⟨u, hu⟩ := hpre
    rw [List.cons_append] at hu
    cases hu
    exact ⟨t, rfl⟩

lemma dropWhile_head_false {p : Char → Bool} (s : GoStr) (d : Char) (t : GoStr)
    (h : s.dropWhile p = d :: t) : p d = false := by
  induction s with
  | nil => simp at h
  | cons a r ih =>
    rw [List.dropWhile_cons] at h
    by_cases ha : p a
    · rw [if_pos ha] at h
      exact ih h
    · rw [if_neg ha] at h
      cases h
      simpa using ha

lemma goTrimSpace_idem (s : GoStr) : goTrimSpace (goTrimSpace s) = goTrimSpace s := by
  unfold goTrimSpace trimRightSpace
  have h1 : (List.rdropWhile goIsSpace (s.dropWhile goIsSpace)).dropWhile goIsSpace
      = List.rdropWhile goIsSpace (s.dropWhile goIsSpace) := by
    cases hrd : List.rdropWhile goIsSpace (s.dropWhile goIsSpace) with
    | nil => rfl
    | cons c t =>
      have hpre := List.rdropWhile_prefix goIsSpace (s.dropWhile goIsSpace)
      rw [hrd] at hpre
      obtain ⟨u, hu⟩ := hpre
      rw [List.cons_append] at hu
      have hc : goIsSpace c = false := dropWhile_head_false s c (t ++ u) hu.symm
      exact List.dropWhile_cons_of_neg (by simp [hc])
  rw [h1, List.rdropWhile_idempotent]

lemma goTrimSpace_eq_nil_iff (s : GoStr) :
    goTrimSpace s = [] ↔ ∀ c ∈ s, goIsSpace c = true := by
  unfold goTrimSpace trimRightSpace
  rw [List.rdropWhile_eq_nil_iff]
  constructor
  · intro h c hc
    cases hd : s.dropWhile goIsSpace with
    | nil => exact List.dropWhile_eq_nil_iff.1 hd c hc
    | cons d t =>
      exact absurd (h d (by rw [hd]; simp))
        (by simp [dropWhile_head_false s d t hd])
  · intro h c hc
    exact h c ((List.dropWhile_suffix goIsSpace).subset hc)

lemma goSplitHostPort_no_colon (s : GoStr) (h : containsChar s ':' = false) :
    goSplitHostPort s = none := by
  unfold goSplitHostPort
  rw [lastIdxOf_eq_none s ':' h]

lemma goSplitHostPort_bracketed (h p : GoStr)
    (hb1 : containsChar h '[' = false) (hb2 : containsChar h ']' = false)
    (hp1 : containsChar p ':' = false) (hp2 : containsChar p '[' = false)
    (hp3 : containsChar p ']' = false) :
    goSplitHostPort ('[' :: h ++ ']' :: ':' :: p) = some (h, p) := by
  have hcolon : lastIdxOf ('[' :: h ++ ']' :: ':' :: p) ':' = some (h.length + 2) := by
    have hsplit : ('[' :: h ++ ']' :: ':' :: p) = ('[' :: h ++ [']']) ++ (':' :: p) := by
      simp
    have htail : lastIdxOf (':' :: p) ':' = some 0 := by
      rw [lastIdxOf, lastIdxOf_eq_none p ':' hp1]
      simp
    rw [hsplit, lastIdxOf_append_some _ _ _ 0 htail]
    simp
  have hbrk : idxOf ('[' :: h ++ ']' :: ':' :: p) ']' = some (h.length + 1) := by
    have hsplit : ('[' :: h ++ ']' :: ':' :: p) = ('[' :: h) ++ (']' :: (':' :: p)) := by
      simp
    rw [hsplit, idxOf_append_cons _ _ _ (by simp [containsChar, hb2])]
    simp
  unfold goSplitHostPort
  split
  next heq => rw [hcolon] at heq; cases heq
  next i heq =>
    rw [hcolon] at heq
    injection heq with heq
    subst heq
    rw [if_pos (by rfl)]
    split
    next heq2 => rw [hbrk] at heq2; cases heq2
    next e heq2 =>
      rw [hbrk] at heq2
      injection heq2 with heq2
      subst heq2
      rw [if_neg (by simp only [List.length_cons, List.length_append]; omega)]
      rw [if_pos (by omega)]
      rw [if_neg (by
        rw [show List.drop 1 ('[' :: h ++ ']' :: ':' :: p) = h ++ ']' :: ':' :: p from rfl]
        rw [containsChar_append]
        simp [hb1, containsChar, hp2])]
      rw [if_neg (by
        rw [show ('[' :: h ++ ']' :: ':' :: p) = ('[' :: h ++ [']']) ++ (':' :: p) by simp]
        rw [List.drop_left' (by simp)]
        simp [containsChar, hp3])]
      have hX : List.drop 1 (List.take (h.length + 1) ('[' :: h ++ ']' :: ':' :: p)) = h := by
        rw [show ('[' :: h ++ ']' :: ':' :: p) = ('[' :: h) ++ (']' :: ':' :: p) by simp]
        rw [List.take_left' (by simp)]
        rfl
      have hY : List.drop (h.length + 2 + 1) ('[' :: h ++ ']' :: ':' :: p) = p := by
        rw [show ('[' :: h ++ ']' :: ':' :: p) = ('[' :: h ++ [']', ':']) ++ p by simp]
        rw [List.drop_left' (by simp [Nat.add_comm])]
      rw [hX, hY]

lemma goSplitHostPort_unbracketed (h p : GoStr)
    (hh1 : containsChar h ':' = false) (hh2 : containsChar h '[' = false)
    (hh3 : containsChar h ']' = false)
    (hp1 : containsChar p ':' = false) (hp2 : containsChar p '[' = false)
    (hp3 : containsChar p ']' = false) :
    goSplitHostPort (h ++ ':' :: p) = some (h, p) := by
  have hcolon : lastIdxOf (h ++ ':' :: p) ':' = some h.length := by
    have htail : lastIdxOf (':' :: p) ':' = some 0 := by
      rw [lastIdxOf, lastIdxOf_eq_none p ':' hp1]
      simp
    rw [lastIdxOf_append_some _ _ _ 0 htail]
    simp
  have hhead : ¬ (h ++ ':' :: p).head? = some '[' := by
    cases h with
    | nil => simp
    | cons c r =>
      rw [containsChar] at hh2
      rcases Bool.or_eq_false_iff.1 hh2 with ⟨h1, -⟩
      simp
      simpa using h1
  unfold goSplitHostPort
  split
  next heq => rw [hcolon] at heq; cases heq
  next i heq =>
    rw [hcolon] at heq
    injection heq with heq
    subst heq
    rw [if_neg hhead]
    simp only [List.take_left]
    rw [if_neg (by simp [hh1])]
    rw [if_neg (by
      rw [containsChar_append]
      simp [hh2, containsChar, hp2])]
    rw [if_neg (by
      rw [containsChar_append]
      simp [hh3, containsChar, hp3])]
    have hY : List.drop (h.length + 1) (h ++ ':' :: p) = p := by
      rw [show (h ++ ':' :: p) = (h ++ [':']) ++ p by simp]
      rw [List.drop_left' (by simp)]
    rw [hY]

lemma dtoi_bracket (r : GoStr) : dtoi ('[' :: r) = (0, 0, false) := rfl

lemma parseIPv4_bracket (r : GoStr) : parseIPv4 ('[' :: r) = none := rfl

lemma hexField_bracket (r : GoStr) : hexField ('[' :: r) = none := rfl

lemma parseIPv6_bracket (r : GoStr) : parseIPv6 ('[' :: r) = none := by
  unfold parseIPv6
  rw [if_neg (by
    rintro ⟨-, htake⟩
    simp at htake)]
  rfl

lemma goParseAddr_bracket (r : GoStr) : goParseAddr ('[' :: r) = none := by
  unfold goParseAddr
  split
  · rw [parseIPv4_bracket]
    rfl
  · split
    · rfl
    · rw [parseIPv6_bracket]
      rfl
  · rfl

lemma goParseIP_bracket (r : GoStr) : goParseIP ('[' :: r) = none := by
  unfold goParseIP
  rw [goParseAddr_bracket]
  rfl

lemma resolveClientIP_bracket_no_port (addr : GoStr)
    (hb : addr.head? = some '[') (hs : goSplitHostPort addr = none) :
    resolveClientIP addr = none := by
  obtain ⟨r, rfl⟩ : ∃ r, addr = '[' :: r := by
    cases addr with
    | nil => cases hb
    | cons c t =>
      simp at hb
      exact ⟨t, by rw [hb]⟩
  unfold resolveClientIP extractHost
  rw [hs]
  obtain ⟨t1, ht1⟩ := goTrimSpace_cons_bracket r
  rw [ht1]
  obtain ⟨t2, ht2⟩ := goTrimSpace_cons_bracket t1
  rw [ht2, goParseIP_bracket]

/-- Every branch of `IsIPAllowed` yields `false` once the client address
    fails to resolve. -/
lemma isIPAllowed_of_resolve_none (addr spec : GoStr)
    (h : resolveClientIP addr = none) : IsIPAllowed addr spec = false := by
  unfold IsIPAllowed
  split
  · rfl
  · rw [h]

/-- `IsIPAllowed` depends on the address only through `resolveClientIP`. -/
lemma isIPAllowed_congr (a b spec : GoStr)
    (h : resolveClientIP a = resolveClientIP b) :
    IsIPAllowed a spec = IsIPAllowed b spec := by
  unfold IsIPAllowed
  rw [h]

/-! ### Claim theorems: access matcher address handling -/

/-- C6 counterexample: a bracketed IPv6 address without a port is denied
    even when the whitelist names exactly that address (which does admit the
    same client when a port is present), because the fallback path parses
    the bracketed string without stripping the brackets. -/
theorem c6_counterexample :
    IsIPAllowed ("[2001:db8::1]".toList) ("2001:db8::1".toList) = false ∧
    IsIPAllowed ("[2001:db8::1]:443".toList) ("2001:db8::1".toList) = true := by
  constructor <;> decide

/-- C6 amended: when the host/port split fails, the whole client string is
    trimmed and parsed as an IP directly, with no bracket stripping; hence
    any bracketed address without a port fails to parse and is denied for
    every spec. -/
theorem c6_no_port_no_bracket_strip (addr spec : GoStr)
    (hb : addr.head? = some '[') (hs : goSplitHostPort addr = none) :
    IsIPAllowed addr spec = false :=
  isIPAllowed_of_resolve_none addr spec
    (resolveClientIP_bracket_no_port addr hb hs)

/-- C6 amended witness: the bracketed, portless client from the
    counterexample under a permissive spec. -/
theorem c6_no_port_no_bracket_strip_witness :
    IsIPAllowed ("[2001:db8::1]".toList) ("::/0".toList) = false :=
  c6_no_port_no_bracket_strip ("[2001:db8::1]".toList) ("::/0".toList)
    (by decide) (by decide)

lemma extractHost_bracketed (h p : GoStr)
    (hb1 : containsChar h '[' = false) (hb2 : containsChar h ']' = false)
    (hp1 : containsChar p ':' = false) (hp2 : containsChar p '[' = false)
    (hp3 : containsChar p ']' = false) :
    extractHost ('[' :: h ++ ']' :: ':' :: p) = h := by
  unfold extractHost
  rw [goSplitHostPort_bracketed h p hb1 hb2 hp1 hp2 hp3]

lemma extractHost_unbracketed (h p : GoStr)
    (hh1 : containsChar h ':' = false) (hh2 : containsChar h '[' = false)
    (hh3 : containsChar h ']' = false)
    (hp1 : containsChar p ':' = false) (hp2 : containsChar p '[' = false)
    (hp3 : containsChar p ']' = false) :
    extractHost (h ++ ':' :: p) = h := by
  unfold extractHost
  rw [goSplitHostPort_unbracketed h p hh1 hh2 hh3 hp1 hp2 hp3]

lemma extractHost_of_split_fail (a : GoStr) (hs : goSplitHostPort a = none) :
    extractHost a = goTrimSpace a := by
  unfold extractHost
  rw [hs]

/-- C7 counterexample: the same IPv6 client is admitted when its address
    carries a port but denied when the bracketed form arrives without one,
    so textual re-formatting does change the result. -/
theorem c7_counterexample :
    IsIPAllowed ("[::1]:8080".toList) ("::1".toList) = true ∧
    IsIPAllowed ("[::1]".toList) ("::1".toList) = false := by
  constructor <;> decide

/-- C7 amended: re-formatting invariance holds for every form that the
    host/port split accepts — the port value never matters for a bracketed
    address, an unbracketed colon-free host gives the same result with or
    without a port, and a bracketed-with-port address agrees with the bare
    host whenever the bare host itself fails the host/port split — and the
    IPv4-mapped IPv6 scenario from the spec holds; only a bracketed IPv6
    address without a port falls outside the invariance (it is always
    denied, see the C6 theorem). -/
theorem c7_reformatting (spec h p q : GoStr) :
    (containsChar h '[' = false → containsChar h ']' = false →
     containsChar p ':' = false → containsChar p '[' = false →
     containsChar p ']' = false →
     containsChar q ':' = false → containsChar q '[' = false →
     containsChar q ']' = false →
     IsIPAllowed ('[' :: h ++ ']' :: ':' :: p) spec
       = IsIPAllowed ('[' :: h ++ ']' :: ':' :: q) spec) ∧
    (containsChar h ':' = false → containsChar h '[' = false →
     containsChar h ']' = false →
     containsChar p ':' = false → containsChar p '[' = false →
     containsChar p ']' = false →
     IsIPAllowed (h ++ ':' :: p) spec = IsIPAllowed h spec) ∧
    (containsChar h '[' = false → containsChar h ']' = false →
     goSplitHostPort h = none →
     containsChar p ':' = false → containsChar p '[' = false →
     containsChar p ']' = false →
     IsIPAllowed ('[' :: h ++ ']' :: ':' :: p) spec = IsIPAllowed h spec) ∧
    IsIPAllowed ("[::ffff:192.168.1.10]:8080".toList) ("192.168.1.10".toList)
      = true := by
  refine ⟨?_, ?_, ?_, by decide⟩
  · intro hb1 hb2 hp1 hp2 hp3 hq1 hq2 hq3
    apply isIPAllowed_congr
    unfold resolveClientIP
    rw [extractHost_bracketed h p hb1 hb2 hp1 hp2 hp3,
        extractHost_bracketed h q hb1 hb2 hq1 hq2 hq3]
  · intro hh1 hh2 hh3 hp1 hp2 hp3
    apply isIPAllowed_congr
    unfold resolveClientIP
    rw [extractHost_unbracketed h p hh1 hh2 hh3 hp1 hp2 hp3,
        extractHost_of_split_fail h (goSplitHostPort_no_colon h hh1),
        goTrimSpace_idem]
  · intro hb1 hb2 hsplit hp1 hp2 hp3
    apply isIPAllowed_congr
    unfold resolveClientIP
    rw [extractHost_bracketed h p hb1 hb2 hp1 hp2 hp3,
        extractHost_of_split_fail h hsplit,
        goTrimSpace_idem]

/-- C7 witness: the three invariance parts at the spec's own scenarios. -/
theorem c7_reformatting_witness :
    (IsIPAllowed ("[2001:db8::1]:443".toList) ("2001:db8::/32".toList)
      = IsIPAllowed ("[2001:db8::1]:8080".toList) ("2001:db8::/32".toList)) ∧
    (IsIPAllowed ("192.168.1.10:12345".toList) ("192.168.1.10".toList)
      = IsIPAllowed ("192.168.1.10".toList) ("192.168.1.10".toList)) ∧
    (IsIPAllowed ("[2001:db8::1]:443".toList) ("2001:db8::1".toList)
      = IsIPAllowed ("2001:db8::1".toList) ("2001:db8::1".toList)) ∧
    IsIPAllowed ("192.168.1.10".toList) ("192.168.1.10".toList) = true := by
  refine ⟨?_, ?_, ?_, by decide⟩
  · exact (c7_reformatting ("2001:db8::/32".toList) ("2001:db8::1".toList)
      ("443".toList) ("8080".toList)).1 (by decide) (by decide) (by decide)
      (by decide) (by decide) (by decide) (by decide) (by decide)
  · exact (c7_reformatting ("192.168.1.10".toList) ("192.168.1.10".toList)
      ("12345".toList) []).2.1 (by decide) (by decide) (by decide)
      (by decide) (by decide) (by decide)
  · exact (c7_reformatting ("2001:db8::1".toList) ("2001:db8::1".toList)
      ("443".toList) []).2.2.1 (by decide) (by decide) (by decide)
      (by decide) (by decide) (by decide)

/-! ### Whitelist-list lemmas for C8 -/

lemma splitComma_no_comma (s : GoStr) (h : containsChar s ',' = false) :
    splitComma s = [s] := by
  induction s with
  | nil => rfl
  | cons c r ih =>
    rw [containsChar] at h
    rcases Bool.or_eq_false_iff.1 h with ⟨h1, h2⟩
    simp only [splitComma]
    rw [if_neg (by simpa using h1), ih h2]

lemma splitComma_append (e t : GoStr) (h : containsChar e ',' = false) :
    splitComma (e ++ ',' :: t) = e :: splitComma t := by
  induction e with
  | nil =>
    rw [List.nil_append]
    simp only [splitComma]
    rw [if_pos trivial]
  | cons c r ih =>
    rw [containsChar] at h
    rcases Bool.or_eq_false_iff.1 h with ⟨h1, h2⟩
    rw [List.cons_append]
    simp only [splitComma]
    rw [if_neg (by simpa using h1), ih h2]

lemma splitComma_joinComma (l : List GoStr) (hne : l ≠ [])
    (h : ∀ x ∈ l, containsChar x ',' = false) :
    splitComma (joinComma l) = l := by
  induction l with
  | nil => cases hne rfl
  | cons a rest ih =>
    cases rest with
    | nil => exact splitComma_no_comma a (h a (by simp))
    | cons b t =>
      rw [show joinComma (a :: b :: t) = a ++ ',' :: joinComma (b :: t) from rfl]
      rw [splitComma_append _ _ (h a (by simp))]
      rw [ih (by simp) (fun x hx => h x (by simp [hx]))]

lemma mem_joinComma (l : List GoStr) (e : GoStr) (c : Char)
    (he : e ∈ l) (hc : c ∈ e) : c ∈ joinComma l := by
  induction l with
  | nil => cases he
  | cons a rest ih =>
    cases rest with
    | nil =>
      have : e = a := by simpa using he
      subst this
      exact hc
    | cons b t =>
      rw [show joinComma (a :: b :: t) = a ++ ',' :: joinComma (b :: t) from rfl]
      rcases List.mem_cons.1 he with rfl | he2
      · exact List.mem_append.2 (Or.inl hc)
      · exact List.mem_append.2 (Or.inr (List.mem_cons_of_mem _ (ih he2)))

lemma comma_mem_joinComma (l : List GoStr) (hlen : 2 ≤ l.length) :
    ',' ∈ joinComma l := by
  match l, hlen with
  | a :: b :: t, _ =>
    rw [show joinComma (a :: b :: t) = a ++ ',' :: joinComma (b :: t) from rfl]
    exact List.mem_append.2 (Or.inr (by simp))

lemma goTrimSpace_ne_nil_of_comma (s : GoStr) (h : ',' ∈ s) :
    ¬ goTrimSpace s = [] := by
  intro hnil
  exact absurd ((goTrimSpace_eq_nil_iff s).1 hnil ',' h) (by decide)

lemma parseWhitelistEntry_all_space (e : GoStr)
    (h : ∀ c ∈ e, goIsSpace c = true) : parseWhitelistEntry e = none := by
  have htrim : goTrimSpace e = [] := (goTrimSpace_eq_nil_iff e).2 h
  unfold parseWhitelistEntry
  rw [htrim]
  rfl

lemma isIPAllowed_eval (addr spec : GoStr) (hgate : ¬ goTrimSpace spec = []) :
    IsIPAllowed addr spec
      = (match resolveClientIP addr with
         | none => false
         | some ip => ((splitComma spec).filterMap parseWhitelistEntry).any
             (fun n => ipNetContains n ip)) := by
  unfold IsIPAllowed
  rw [if_neg hgate]

lemma isIPAllowed_no_nets (addr spec : GoStr)
    (hnets : (splitComma spec).filterMap parseWhitelistEntry = []) :
    IsIPAllowed addr spec = false := by
  unfold IsIPAllowed
  split
  · rfl
  · show (match resolveClientIP addr with
         | none => false
         | some ip => ((splitComma spec).filterMap parseWhitelistEntry).any
             (fun n => ipNetContains n ip)) = false
    rw [hnets]
    cases resolveClientIP addr with
    | none => rfl
    | some ip => rfl

lemma any_congr_perm {α : Type} (l1 l2 : List α) (f : α → Bool)
    (hp : l1.Perm l2) : l1.any f = l2.any f := by
  cases h1 : l1.any f with
  | true =>
    rw [List.any_eq_true] at h1
    obtain ⟨x, hx, hfx⟩ := h1
    symm
    rw [List.any_eq_true]
    exact ⟨x, hp.mem_iff.1 hx, hfx⟩
  | false =>
    rw [List.any_eq_false] at h1
    symm
    rw [List.any_eq_false]
    intro x hx
    exact h1 x (hp.mem_iff.2 hx)

/-- C8: `IsAllowed` is invariant under permuting the comma-separated
    entries of the spec and under inserting or removing an unparseable
    entry anywhere in the list (entries contain no comma by construction);
    determinism is immediate since the embedding is a function. -/
theorem c8_spec_invariance (addr : GoStr) :
    (∀ l1 l2 : List GoStr, l1.Perm l2 →
      (∀ x ∈ l1, containsChar x ',' = false) →
      IsIPAllowed addr (joinComma l1) = IsIPAllowed addr (joinComma l2)) ∧
    (∀ (l1 l2 : List GoStr) (e : GoStr), parseWhitelistEntry e = none →
      containsChar e ',' = false →
      (∀ x ∈ l1, containsChar x ',' = false) →
      (∀ x ∈ l2, containsChar x ',' = false) →
      IsIPAllowed addr (joinComma (l1 ++ e :: l2))
        = IsIPAllowed addr (joinComma (l1 ++ l2))) := by
  constructor
  · intro l1 l2 hp h1
    have h2 : ∀ x ∈ l2, containsChar x ',' = false :=
      fun x hx => h1 x (hp.mem_iff.2 hx)
    cases l1 with
    | nil =>
      have : l2 = [] := by
        have := hp.length_eq
        cases l2 with
        | nil => rfl
        | cons _ _ => simp at this
      rw [this]
    | cons a r =>
      cases r with
      | nil =>
        have : l2 = [a] := by
          have hlen := hp.length_eq
          cases l2 with
          | nil => simp at hlen
          | cons a2 r2 =>
            cases r2 with
            | nil =>
              have ha : a ∈ [a2] := hp.subset (by simp)
              simp at ha
              rw [ha]
            | cons _ _ => simp at hlen
        rw [this]
      | cons b t =>
        have hlen2 : 2 ≤ l2.length := by
          have := hp.length_eq
          simp at this
          omega
        obtain ⟨a2, b2, t2, rfl⟩ : ∃ a2 b2 t2, l2 = a2 :: b2 :: t2 := by
          cases l2 with
          | nil => simp at hlen2
          | cons a2 r2 =>
            cases r2 with
            | nil => simp at hlen2
            | cons b2 t2 => exact ⟨a2, b2, t2, rfl⟩
        rw [isIPAllowed_eval addr _
            (goTrimSpace_ne_nil_of_comma _ (comma_mem_joinComma _ (by simp))),
          isIPAllowed_eval addr _
            (goTrimSpace_ne_nil_of_comma _ (comma_mem_joinComma _ (by simp)))]
        cases resolveClientIP addr with
        | none => rfl
        | some ip =>
          rw [splitComma_joinComma _ (by simp) h1,
              splitComma_joinComma _ (by simp) h2]
          exact any_congr_perm _ _ _ (hp.filterMap parseWhitelistEntry)
  · intro l1 l2 e hpe hce h1 h2
    have hallL : ∀ x ∈ l1 ++ e :: l2, containsChar x ',' = false := by
      intro x hx
      rcases List.mem_append.1 hx with hx | hx
      · exact h1 x hx
      · rcases List.mem_cons.1 hx with rfl | hx
        · exact hce
        · exact h2 x hx
    have hallR : ∀ x ∈ l1 ++ l2, containsChar x ',' = false := by
      intro x hx
      rcases List.mem_append.1 hx with hx | hx
      · exact h1 x hx
      · exact h2 x hx
    have hnetseq : (l1 ++ e :: l2).filterMap parseWhitelistEntry
        = (l1 ++ l2).filterMap parseWhitelistEntry := by
      rw [List.filterMap_append, List.filterMap_append,
          List.filterMap_cons_none hpe]
    by_cases hempty : l1 ++ l2 = []
    · obtain ⟨rfl, rfl⟩ := List.append_eq_nil.1 hempty
      rw [show ([] : List GoStr) ++ e :: [] = [e] from rfl]
      rw [show joinComma [e] = e from rfl]
      rw [show joinComma ([] ++ ([] : List GoStr)) = [] from rfl]
      rw [show IsIPAllowed addr [] = false from rfl]
      by_cases hg : goTrimSpace e = []
      · unfold IsIPAllowed
        rw [if_pos hg]
      · apply isIPAllowed_no_nets
        rw [splitComma_no_comma e hce, List.filterMap_cons_none hpe]
        rfl
    · have hlenL : 2 ≤ (l1 ++ e :: l2).length := by
        have : l1 ++ l2 ≠ [] := hempty
        rcases List.exists_cons_of_ne_nil this with ⟨x, xs, hx⟩
        have := congrArg List.length hx
        simp at this ⊢
        omega
      by_cases hg2 : goTrimSpace (joinComma (l1 ++ l2)) = []
      · have hall := (goTrimSpace_eq_nil_iff _).1 hg2
        have hnets2 : (l1 ++ l2).filterMap parseWhitelistEntry = [] := by
          rw [List.filterMap_eq_nil_iff]
          intro x hx
          exact parseWhitelistEntry_all_space x
            (fun c hc => hall c (mem_joinComma _ x c hx hc))
        have hrhs : IsIPAllowed addr (joinComma (l1 ++ l2)) = false := by
          unfold IsIPAllowed
          rw [if_pos hg2]
        have hlhs : IsIPAllowed addr (joinComma (l1 ++ e :: l2)) = false := by
          apply isIPAllowed_no_nets
          rw [splitComma_joinComma _ (by simp) hallL, hnetseq, hnets2]
        rw [hlhs, hrhs]
      · rw [isIPAllowed_eval addr _
            (goTrimSpace_ne_nil_of_comma _ (comma_mem_joinComma _ hlenL)),
          isIPAllowed_eval addr _ hg2]
        cases resolveClientIP addr with
        | none => rfl
        | some ip =>
          rw [splitComma_joinComma _ (by simp) hallL,
              splitComma_joinComma _ hempty hallR, hnetseq]

/-- C8 witness: swapping the two entries of the spec's own two-entry list,
    and inserting the malformed entry `bad_cidr` between them. -/
theorem c8_spec_invariance_witness :
    (IsIPAllowed ("10.1.2.3:8080".toList)
        (joinComma ["192.168.1.1".toList, "10.0.0.0/8".toList])
      = IsIPAllowed ("10.1.2.3:8080".toList)
        (joinComma ["10.0.0.0/8".toList, "192.168.1.1".toList])) ∧
    (IsIPAllowed ("10.1.2.3:8080".toList)
        (joinComma (["192.168.1.1".toList] ++ "bad_cidr".toList ::
          ["10.0.0.0/8".toList]))
      = IsIPAllowed ("10.1.2.3:8080".toList)
        (joinComma (["192.168.1.1".toList] ++ ["10.0.0.0/8".toList]))) ∧
    IsIPAllowed ("10.1.2.3:8080".toList)
      (joinComma ["192.168.1.1".toList, "10.0.0.0/8".toList]) = true := by
  refine ⟨?_, ?_, by decide⟩
  · exact (c8_spec_invariance _).1 _ _ (by decide) (by decide)
  · exact (c8_spec_invariance _).2 _ _ _ (by decide) (by decide) (by decide)
      (by decide)
